import Mathlib

/-!
# Verification of the lip6 cluster TUI core

Shallow embedding of the job-lifecycle core of the `lip6tui` package:
the duration codec (`lip6tui/duration.py`), the SSH remote executor
(`lip6tui/ssh.py`), the two scheduler adapters
(`lip6tui/hpc/commands.py`, `lip6tui/conv/commands.py`) and the
connect/tunnel logic of the two apps (`lip6tui/hpc/app.py`,
`lip6tui/conv/app.py`).

Python strings are modelled as `List Char` (with `String` wrappers kept
under the source names).  The regular expressions used by the source are
small enough that each is embedded as a hand-rolled scanner with the
exact same matching semantics on the character classes involved; the
character classes `\d` and `\s` are modelled by their ASCII subsets,
which is what the data handled by the program contains.
-/

namespace Lip6

/-- ASCII model of the regex class `\d`. -/
def isDigitCh (c : Char) : Bool := '0' ≤ c && c ≤ '9'

/-- ASCII model of the regex class `\s` (and of the default
`str.strip` character set): space, tab, newline, carriage return,
vertical tab, form feed. -/
def isSpaceCh (c : Char) : Bool :=
  c = ' ' || c = '\t' || c = '\n' || c = '\r' || c = '\x0b' || c = '\x0c'

/-- Numeric value of a digit character. -/
def digitVal (c : Char) : Nat := c.toNat - '0'.toNat

/-- Value of a digit string, as Python `int(...)` computes it on a
string of decimal digits (leading zeros allowed). -/
def digitsVal (cs : List Char) : Nat :=
  cs.foldl (fun a c => 10 * a + digitVal c) 0

/-- The decimal digit character for `n < 10`. -/
def digitCh (n : Nat) : Char := Char.ofNat ('0'.toNat + n)

/-- Decimal rendering of a natural number (Python `str(n)` / `f"{n}"`
for a non-negative int), fuel-structural so that it evaluates by
`decide`. -/
def toDigitsAux : Nat → Nat → List Char
  | 0, _ => []
  | fuel + 1, n =>
    if n < 10 then [digitCh n]
    else toDigitsAux fuel (n / 10) ++ [digitCh (n % 10)]

/-- Decimal rendering of a natural number. -/
def toDigits (n : Nat) : List Char := toDigitsAux (n + 1) n

/-- Python `f"{n:02d}"` for a non-negative int: zero-pad to width 2. -/
def pad2 (n : Nat) : List Char :=
  if n < 10 then '0' :: toDigits n else toDigits n

/-- Python `str.strip()` (ASCII whitespace model): drop whitespace from
both ends. -/
def pyStrip (cs : List Char) : List Char :=
  ((cs.dropWhile isSpaceCh).reverse.dropWhile isSpaceCh).reverse

/-- ASCII model of `str.lower()` on one character. -/
def lowerCh (c : Char) : Char :=
  if 'A' ≤ c && c ≤ 'Z' then Char.ofNat (c.toNat + 32) else c

/-- ASCII model of Python `str.lower()`. -/
def pyLower (cs : List Char) : List Char := cs.map lowerCh

/-- Embedding of `re.match(r"^(\d+):(\d+):(\d+)$", text)` from
`duration.py`: three non-empty digit groups separated by colons,
anchored at both ends.  Returns the three group values. -/
def hmsMatch (cs : List Char) : Option (Nat × Nat × Nat) :=
  let g1 := cs.takeWhile isDigitCh
  let r1 := cs.dropWhile isDigitCh
  if g1 = [] then none else
  match r1 with
  | ':' :: r2 =>
    let g2 := r2.takeWhile isDigitCh
    let r3 := r2.dropWhile isDigitCh
    if g2 = [] then none else
    match r3 with
    | ':' :: r4 =>
      let g3 := r4.takeWhile isDigitCh
      let r5 := r4.dropWhile isDigitCh
      if g3 = [] then none
      else if r5 = [] then some (digitsVal g1, digitsVal g2, digitsVal g3)
      else none
    | _ => none
  | _ => none

/-- Is the character one of the duration units `d`, `h`, `m`? -/
def isUnitCh (c : Char) : Bool := c = 'd' || c = 'h' || c = 'm'

/-- Embedding of `re.findall(r"(\d+)\s*(d|h|m)", text)` from
`duration.py`.  The scan is the one the regex engine performs: at each
position try the maximal digit run, then a maximal whitespace run, then
a unit character; on success emit the pair and resume after the match,
on failure advance one character.  (For this pattern backtracking
inside a failed attempt can never succeed, so maximal munch is exact.)
Fuel-structural on the list length. -/
def findTokensAux : Nat → List Char → List (Nat × Char)
  | 0, _ => []
  | _, [] => []
  | fuel + 1, c :: rest =>
    if isDigitCh c then
      let ds := (c :: rest).takeWhile isDigitCh
      let r1 := (c :: rest).dropWhile isDigitCh
      let r2 := r1.dropWhile isSpaceCh
      match r2 with
      | u :: r3 =>
        if isUnitCh u then (digitsVal ds, u) :: findTokensAux fuel r3
        else findTokensAux fuel rest
      | [] => findTokensAux fuel rest
    else findTokensAux fuel rest

/-- All matches of `(\d+)\s*(d|h|m)` in scan order. -/
def findTokens (cs : List Char) : List (Nat × Char) :=
  findTokensAux cs.length cs

/-- Minute weight of a unit character (`d`→1440, `h`→60, `m`→1),
as in the `if unit == "d" … elif … else` chain of `parse_to_minutes`. -/
def unitWeight (u : Char) : Nat :=
  if u = 'd' then 1440 else if u = 'h' then 60 else 1

/-- Sum the matched tokens with their unit weights, as the accumulation
loop of `parse_to_minutes` does. -/
def tokensTotal (ts : List (Nat × Char)) : Nat :=
  ts.foldl (fun a t => a + t.1 * unitWeight t.2) 0

/-- Body of `parse_to_minutes` after the initial
`text = text.strip().lower()` normalisation: the empty check, the
legacy `H:M:S` branch, the composite-token branch, and the bare-number
branch, in source order. -/
def parseStripped (t : List Char) : Option Nat :=
  if t = [] then none
  else
    match hmsMatch t with
    | some (h, mn, _) => some (h * 60 + mn)
    | none =>
      if findTokens t ≠ [] then some (tokensTotal (findTokens t))
      else if t.all isDigitCh then some (digitsVal t * 60)
      else none

/-- Embedding of `duration.parse_to_minutes` (strip, lower, then the
branch chain). -/
def parse_to_minutes (s : String) : Option Nat :=
  parseStripped (pyLower (pyStrip s.data))

/-- Embedding of `duration.minutes_to_hms` (`f"{h}:{m}:0"`, the OAR /
"wire b" format). -/
def minutes_to_hms (total_minutes : Nat) : String :=
  ⟨toDigits (total_minutes / 60) ++ ':' :: toDigits (total_minutes % 60)
    ++ [':', '0']⟩

/-- Embedding of `duration.minutes_to_slurm` (the SLURM / "wire a"
format: `HH:MM:00`, or `D-HH:MM:00` when hours reach 24). -/
def minutes_to_slurm (total_minutes : Nat) : String :=
  let total_h := total_minutes / 60
  let m := total_minutes % 60
  if 24 ≤ total_h then
    ⟨toDigits (total_h / 24) ++ '-' :: pad2 (total_h % 24)
      ++ ':' :: pad2 m ++ [':', '0', '0']⟩
  else
    ⟨pad2 total_h ++ ':' :: pad2 m ++ [':', '0', '0']⟩

/-- Model of Python join with a single-space separator, on character
lists. -/
def joinSpace : List (List Char) → List Char
  | [] => []
  | [p] => p
  | p :: ps => p ++ ' ' :: joinSpace ps

/-- The non-zero `{d,h,m}` parts of `minutes_to_human`. -/
def humanParts (total_minutes : Nat) : List (List Char) :=
  let d := total_minutes / 1440
  let h := (total_minutes % 1440) / 60
  let m := total_minutes % 60
  (if d ≠ 0 then [toDigits d ++ ['d']] else [])
    ++ (if h ≠ 0 then [toDigits h ++ ['h']] else [])
    ++ (if m ≠ 0 then [toDigits m ++ ['m']] else [])

/-- Embedding of `duration.minutes_to_human`. -/
def minutes_to_human (total_minutes : Nat) : String :=
  if total_minutes = 0 then "0m"
  else
    let parts := humanParts total_minutes
    if parts = [] then "0m" else ⟨joinSpace parts⟩

/-- Rendering of one composite-duration token, e.g. `(3, 'h') ↦ "3h"`. -/
def renderPart (t : Nat × Char) : List Char := toDigits t.1 ++ [t.2]

/-- The token list underlying `minutes_to_human`. -/
def humanTokens (m : Nat) : List (Nat × Char) :=
  (if m / 1440 ≠ 0 then [(m / 1440, 'd')] else [])
    ++ (if (m % 1440) / 60 ≠ 0 then [((m % 1440) / 60, 'h')] else [])
    ++ (if m % 60 ≠ 0 then [(m % 60, 'm')] else [])

/-! ## Remote executor (`lip6tui/ssh.py`)

The environment (the local `ssh` binary and the remote host) is
modelled as one observable behaviour per call: either the process
completes with given decoded output text and exit status, or the
per-call timeout fires, or starting the transport raises locally with
a given exception text.  Output is modelled at the decoded-text level,
which is what both code paths hand back to their caller. -/

/-- The `(stdout, stderr, exit status)` triple both executor variants
return. -/
structure RemoteCommandResult where
  stdout : String
  stderr : String
  exit_code : Int
  deriving DecidableEq, Repr

/-- Observable behaviour of one spawned ssh process. -/
inductive SSHBehavior where
  | completes (stdout stderr : String) (code : Int)
  | timesOut
  | startFail (msg : String)
  deriving DecidableEq, Repr

/-- Embedding of `SSHClient.run_sync`: `subprocess.run` result on
completion, the synthetic timeout result on `TimeoutExpired`, the
exception text on any other local failure. -/
def run_sync : SSHBehavior → RemoteCommandResult
  | .completes o e c => ⟨o, e, c⟩
  | .timesOut => ⟨"", "SSH command timed out", 1⟩
  | .startFail msg => ⟨"", msg, 1⟩

/-- Python `proc.returncode or 0` on an integer return code. -/
def pyOrZero (c : Int) : Int := if c = 0 then 0 else c

/-- Result of the suspend-until-complete variant together with whether
`proc.kill()` was invoked. -/
structure AsyncRunTrace where
  result : RemoteCommandResult
  killed : Bool
  deriving DecidableEq, Repr

/-- Embedding of `SSHClient.run` (the `async` variant): on timeout the
process is killed and the synthetic result returned; on completion the
decoded outputs and `proc.returncode or 0`; on a local start failure
the exception text. -/
def run : SSHBehavior → AsyncRunTrace
  | .completes o e c => ⟨⟨o, e, pyOrZero c⟩, false⟩
  | .timesOut => ⟨⟨"", "SSH command timed out", 1⟩, true⟩
  | .startFail msg => ⟨⟨"", msg, 1⟩, false⟩

/-! ### Byte-level view of the two decode paths

The two variants decode the process output differently: `run_sync`
reads through `text=True`, which decodes in the ambient locale codec
and applies universal-newline translation, while `run` calls
`.decode(errors="replace")` on the raw bytes with no translation.  To
compare them the completion case is modelled at the byte level, on the
ASCII domain: every byte below 128 decodes to the same character under
every ASCII-compatible locale codec and under UTF-8, so on that domain
the decoders agree byte-wise and what remains is exactly the
universal-newline translation (bytes at or above 128, where the strict
locale decode may fail or differ from the replacing UTF-8 decode, are
outside this model and the theorems only evaluate it under an
all-ASCII hypothesis). -/

/-- Behaviour of one spawned ssh process with raw output bytes. -/
inductive SSHProcBytes where
  | completes (stdout stderr : List Nat) (code : Int)
  | timesOut
  | startFail (msg : String)
  deriving DecidableEq, Repr

/-- Byte-wise decode on the ASCII domain. -/
def decodeAscii (bs : List Nat) : List Char := bs.map Char.ofNat

/-- Universal-newline translation applied by text-mode reading:
`\r\n` and lone `\r` both become `\n`. -/
def univNewlines : List Char → List Char
  | [] => []
  | '\r' :: '\n' :: rest => '\n' :: univNewlines rest
  | '\r' :: rest => '\n' :: univNewlines rest
  | c :: rest => c :: univNewlines rest

/-- `SSHClient.run_sync` on byte-level behaviour: `text=True` decodes
and applies universal-newline translation. -/
def run_sync_bytes : SSHProcBytes → RemoteCommandResult
  | .completes o e c =>
    ⟨⟨univNewlines (decodeAscii o)⟩, ⟨univNewlines (decodeAscii e)⟩, c⟩
  | .timesOut => ⟨"", "SSH command timed out", 1⟩
  | .startFail msg => ⟨"", msg, 1⟩

/-- `SSHClient.run` on byte-level behaviour: plain decode, no newline
translation, exit code `proc.returncode or 0`. -/
def run_bytes : SSHProcBytes → AsyncRunTrace
  | .completes o e c =>
    ⟨⟨⟨decodeAscii o⟩, ⟨decodeAscii e⟩, pyOrZero c⟩, false⟩
  | .timesOut => ⟨⟨"", "SSH command timed out", 1⟩, true⟩
  | .startFail msg => ⟨⟨"", msg, 1⟩, false⟩

/-! ## Python line and field splitting helpers -/

/-- Model of Python `str.splitlines()` over the ASCII terminators
`\n`, `\r\n` and `\r` (the inputs handled by the program contain only
these). -/
def pySplitlinesAux : List Char → List Char → List (List Char)
  | [], acc => if acc = [] then [] else [acc.reverse]
  | '\r' :: '\n' :: rest, acc => acc.reverse :: pySplitlinesAux rest []
  | '\r' :: rest, acc => acc.reverse :: pySplitlinesAux rest []
  | '\n' :: rest, acc => acc.reverse :: pySplitlinesAux rest []
  | c :: rest, acc => pySplitlinesAux rest (c :: acc)

/-- Python `str.splitlines()`. -/
def pySplitlines (cs : List Char) : List (List Char) := pySplitlinesAux cs []

/-- Model of Python `str.split("|")` (no maxsplit). -/
def pySplitBarAux : List Char → List Char → List (List Char)
  | [], acc => [acc.reverse]
  | '|' :: rest, acc => acc.reverse :: pySplitBarAux rest []
  | c :: rest, acc => pySplitBarAux rest (c :: acc)

/-- Python `str.split("|")`. -/
def pySplitBar (cs : List Char) : List (List Char) := pySplitBarAux cs []

/-- Python substring containment `pat in cs`. -/
def containsSub (pat : List Char) : List Char → Bool
  | [] => pat.isEmpty
  | c :: rest => pat.isPrefixOf (c :: rest) || containsSub pat rest

/-- Python `line.split("=", 1)[1].strip()`: everything after the first
`=`, stripped (callers guard that an `=` is present). -/
def afterEq (cs : List Char) : List Char :=
  pyStrip ((cs.dropWhile (fun c => c != '=')).tail)

/-! ## SLURM adapter (`lip6tui/conv/commands.py`) -/

/-- The per-job record built by `fetch_jobs` from one squeue line. -/
structure SLURMJob where
  job_id : String := ""
  name : String := ""
  state : String := ""
  node : String := ""
  elapsed : String := ""
  time_limit : String := ""
  time_left : String := ""
  reason : String := ""
  deriving DecidableEq, Repr

/-- The field-count branch of the `fetch_jobs` loop body: eight or
more fields give a full record, four to seven give a partial record,
fewer are dropped. -/
def squeueArms : List (List Char) → Option SLURMJob
  | p0 :: p1 :: p2 :: p3 :: p4 :: p5 :: p6 :: p7 :: _ =>
    some ⟨⟨p0⟩, ⟨p1⟩, ⟨p2⟩, ⟨p3⟩, ⟨p4⟩, ⟨p5⟩, ⟨p6⟩, ⟨p7⟩⟩
  | p0 :: p1 :: p2 :: p3 :: _ =>
    some ⟨⟨p0⟩, ⟨p1⟩, ⟨p2⟩, ⟨p3⟩, "", "", "", ""⟩
  | _ => none

/-- The per-line branch of `fetch_jobs`: strip, split on `|`, then the
field-count branch. -/
def parseSqueueLine (line : List Char) : Option SLURMJob :=
  squeueArms (pySplitBar (pyStrip line))

/-- The listing loop of `conv.commands.fetch_jobs` on already-split
lines. -/
def parseSqueueLines (lines : List (List Char)) : List SLURMJob :=
  lines.filterMap parseSqueueLine

/-- Embedding of `conv.commands.fetch_jobs` as a function of the
remote command result: empty on non-zero exit or blank stdout,
otherwise the per-line parse of `stdout.strip().splitlines()`. -/
def conv_fetch_jobs (stdout : String) (rc : Int) : List SLURMJob :=
  if rc ≠ 0 ∨ pyStrip stdout.data = [] then []
  else parseSqueueLines (pySplitlines (pyStrip stdout.data))

/-! ## OAR adapter (`lip6tui/hpc/commands.py`) -/

/-- The per-job record built by `parse_oarstat_full`. -/
structure OARJob where
  job_id : String := ""
  name : String := ""
  state : String := ""
  walltime : String := ""
  start_time : String := ""
  node : String := ""
  cores : String := ""
  deriving DecidableEq, Repr

/-- Embedding of `re.match(r"Job_Id\s*:\s*(\d+)", line)`: the literal
`Job_Id` at line start, optional whitespace, a colon, optional
whitespace, then at least one digit; the digit group is returned. -/
def headerId (cs : List Char) : Option (List Char) :=
  if ['J', 'o', 'b', '_', 'I', 'd'].isPrefixOf cs then
    match (cs.drop 6).dropWhile isSpaceCh with
    | ':' :: r2 =>
      let ds := (r2.dropWhile isSpaceCh).takeWhile isDigitCh
      if ds = [] then none else some ds
    | _ => none
  else none

/-- Embedding of `re.search(r"core=(\d+)", line)`: leftmost occurrence
of the literal `core=` followed by at least one digit. -/
def searchCoreNum : List Char → Option (List Char)
  | [] => none
  | c :: rest =>
    if ['c', 'o', 'r', 'e', '='].isPrefixOf (c :: rest) then
      let ds := ((c :: rest).drop 5).takeWhile isDigitCh
      if ds = [] then searchCoreNum rest else some ds
    else searchCoreNum rest

/-- A fresh record as created at a `Job_Id` header line. -/
def newOARJob (ds : List Char) : OARJob := { job_id := ⟨ds⟩ }

/-- The `elif` chain updating the current record from one `key = value`
line of the block. -/
def oarUpdate (j : OARJob) (line : List Char) : OARJob :=
  if containsSub "name =".data line then { j with name := ⟨afterEq line⟩ }
  else if containsSub "state =".data line then { j with state := ⟨afterEq line⟩ }
  else if containsSub "walltime =".data line then
    { j with walltime := ⟨afterEq line⟩ }
  else if containsSub "startTime =".data line then
    { j with start_time := ⟨afterEq line⟩ }
  else if containsSub "assigned_hostnames =".data line then
    { j with node := ⟨afterEq line⟩ }
  else if containsSub "wanted_resources =".data line then
    match searchCoreNum line with
    | some ds => { j with cores := ⟨ds⟩ }
    | none => j
  else j

/-- The accumulation loop of `parse_oarstat_full`: a header line
flushes the current record (when it carries a job id) and starts a new
one; other lines update the current record when one exists and are
skipped otherwise; the final record is flushed at end of input.
Records are emitted in the order the Python loop appends them. -/
def parseOarAux : Option OARJob → List (List Char) → List OARJob
  | cur, [] =>
    (match cur with
     | some j => if j.job_id ≠ "" then [j] else []
     | none => [])
  | cur, line :: rest =>
    match headerId line with
    | some ds =>
      (match cur with
       | some j =>
         if j.job_id ≠ "" then j :: parseOarAux (some (newOARJob ds)) rest
         else parseOarAux (some (newOARJob ds)) rest
       | none => parseOarAux (some (newOARJob ds)) rest)
    | none =>
      (match cur with
       | none => parseOarAux none rest
       | some j => parseOarAux (some (oarUpdate j line)) rest)

/-- Embedding of `hpc.commands.parse_oarstat_full`. -/
def parse_oarstat_full (text : String) : List OARJob :=
  parseOarAux none (pySplitlines text.data)

/-! ## Submission outcome (`submit_jupyter_job` / `submit_custom_job`,
both scheduler variants)

All four submit functions share the identical postlude on the remote
command result: `job_id = stdout.strip()`, failure when that is not a
non-empty digit string, with `stderr.strip() or "Failed to submit
job"` as the error, success otherwise with an empty error. -/

/-- The `(job_id, error_msg)` pair computed from the remote command
result. -/
def submitOutcome (stdout stderr : String) : String × String :=
  let job_id := pyStrip stdout.data
  if job_id = [] ∨ ¬ job_id.all isDigitCh = true then
    ("", if pyStrip stderr.data = [] then "Failed to submit job"
      else ⟨pyStrip stderr.data⟩)
  else (⟨job_id⟩, "")

/-- `hpc.commands.submit_jupyter_job` outcome. -/
def hpc_submit_jupyter_job (stdout stderr : String) : String × String :=
  submitOutcome stdout stderr

/-- `hpc.commands.submit_custom_job` outcome. -/
def hpc_submit_custom_job (stdout stderr : String) : String × String :=
  submitOutcome stdout stderr

/-- `conv.commands.submit_jupyter_job` outcome. -/
def conv_submit_jupyter_job (stdout stderr : String) : String × String :=
  submitOutcome stdout stderr

/-- `conv.commands.submit_custom_job` outcome. -/
def conv_submit_custom_job (stdout stderr : String) : String × String :=
  submitOutcome stdout stderr

/-! ## Endpoint resolution (`_connect_to` in `hpc/app.py` and
`conv/app.py`)

Both apps run the same resolution after a job reaches Running: one
`get_job_node` query, a validity check on the node name, then up to 30
`get_jupyter_url` attempts with `asyncio.sleep(2)` after each failed
attempt.  The remote urls the attempts would observe are an oracle
`get : Nat → String` (empty string = no url yet).  The run is recorded
as an event trace; informational notifications are elided. -/

/-- Character class of `validators.is_name`: `[a-zA-Z0-9_.-]`. -/
def isNameCh (c : Char) : Bool :=
  ('a' ≤ c && c ≤ 'z') || ('A' ≤ c && c ≤ 'Z') || isDigitCh c
    || c = '_' || c = '.' || c = '-'

/-- Embedding of `validators.is_name`. -/
def is_name (value : String) : Bool :=
  let t := pyStrip value.data
  !t.isEmpty && t.all isNameCh

/-- Observable events of one `_connect_to` run. -/
inductive ConnEvent where
  | queryNode
  | queryUrl (attempt : Nat)
  | sleepSecs (n : Nat)
  | notifyErr (msg : String)
  | pushSession (url : String)
  | cancelJob
  deriving DecidableEq, Repr

/-- Classifier for url-query events, used to count attempts. -/
def isQueryUrlEv : ConnEvent → Bool
  | .queryUrl _ => true
  | _ => false

/-- The `for _ in range(n)` url loop starting at attempt index `i`:
returns the final value of `url` and the events of the loop body. -/
def resolveLoop (get : Nat → String) : Nat → Nat → String × List ConnEvent
  | _, 0 => ("", [])
  | i, n + 1 =>
    if get i ≠ "" then (get i, [.queryUrl i])
    else
      let r := resolveLoop get (i + 1) n
      (r.1, .queryUrl i :: .sleepSecs 2 :: r.2)

/-- The error notification for a missing node. -/
def nodeErrMsg (job_id : String) : String :=
  "Could not find node for job " ++ job_id

/-- The error notification when the url never appears. -/
def serviceErrMsg : String := "Jupyter didn\x27t start. Check job logs."

/-- Embedding of `_connect_to job_id`, as the event trace it produces,
given the node answer and the url oracle. -/
def connect_to (job_id : String) (node : String) (get : Nat → String) :
    List ConnEvent :=
  .queryNode ::
    (if node = "" ∨ is_name node = false then [.notifyErr (nodeErrMsg job_id)]
     else
       (resolveLoop get 0 30).2
         ++ (if (resolveLoop get 0 30).1 = "" then [.notifyErr serviceErrMsg]
             else [.pushSession (resolveLoop get 0 30).1]))

/-! ## Tunnel close (`SessionScreen._cleanup` in `hpc/app.py`,
`SessionScreen.action_disconnect` in `conv/app.py`)

The guard is `if self._tunnel and self._tunnel.poll() is None:
self._tunnel.terminate()`.  The handle is modelled as the optional
process and its state as the `poll`-observable status; `cleanup`
returns the number of SIGTERMs the close sends.  Neither close path
clears `self._tunnel`. -/

/-- Status of the forwarding process as `Popen.poll` observes it. -/
inductive ProcState where
  | running
  | exited (code : Int)
  deriving DecidableEq, Repr

/-- `Popen.poll()`: `None` while running, the exit code afterwards. -/
def poll : ProcState → Option Int
  | .running => none
  | .exited c => some c

/-- One close of the tunnel handle: number of SIGTERMs sent
(`terminate()` is called exactly when a process exists and `poll()` is
`None`); the handle itself is left unchanged by the code. -/
def cleanup (tunnel : Option ProcState) : Nat :=
  match tunnel with
  | some p => if poll p = none then 1 else 0
  | none => 0

/-! ## Generic list-scanning lemmas -/

theorem takeWhile_all {p : Char → Bool} :
    ∀ xs : List Char, (∀ c ∈ xs, p c = true) → xs.takeWhile p = xs
  | [], _ => rfl
  | x :: xs, h => by
    have hx : p x = true := h x (by simp)
    simp only [List.takeWhile_cons, hx, if_true]
    rw [takeWhile_all xs (fun c hc => h c (by simp [hc]))]

theorem dropWhile_all {p : Char → Bool} :
    ∀ xs : List Char, (∀ c ∈ xs, p c = true) → xs.dropWhile p = []
  | [], _ => rfl
  | x :: xs, h => by
    have hx : p x = true := h x (by simp)
    simp only [List.dropWhile_cons, hx, if_true]
    exact dropWhile_all xs (fun c hc => h c (by simp [hc]))

theorem takeWhile_append_all {p : Char → Bool} :
    ∀ xs ys : List Char, (∀ c ∈ xs, p c = true) →
      (xs ++ ys).takeWhile p = xs ++ ys.takeWhile p
  | [], ys, _ => rfl
  | x :: xs, ys, h => by
    have hx : p x = true := h x (by simp)
    simp only [List.cons_append, List.takeWhile_cons, hx, if_true]
    rw [takeWhile_append_all xs ys (fun c hc => h c (by simp [hc]))]

theorem dropWhile_append_all {p : Char → Bool} :
    ∀ xs ys : List Char, (∀ c ∈ xs, p c = true) →
      (xs ++ ys).dropWhile p = ys.dropWhile p
  | [], ys, _ => rfl
  | x :: xs, ys, h => by
    have hx : p x = true := h x (by simp)
    simp only [List.cons_append, List.dropWhile_cons, hx, if_true]
    exact dropWhile_append_all xs ys (fun c hc => h c (by simp [hc]))

theorem dropWhile_cons_false {p : Char → Bool} {c : Char} (t : List Char)
    (h : p c = false) : (c :: t).dropWhile p = c :: t := by
  simp [List.dropWhile_cons, h]

theorem takeWhile_cons_false {p : Char → Bool} {c : Char} (t : List Char)
    (h : p c = false) : (c :: t).takeWhile p = [] := by
  simp [List.takeWhile_cons, h]

/-! ## Character and digit-string lemmas -/

theorem digitVal_digitCh {r : Nat} (h : r < 10) : digitVal (digitCh r) = r := by
  interval_cases r <;> decide

theorem isDigitCh_digitCh {r : Nat} (h : r < 10) : isDigitCh (digitCh r) = true := by
  interval_cases r <;> decide

theorem isSpaceCh_digitCh {r : Nat} (h : r < 10) : isSpaceCh (digitCh r) = false := by
  interval_cases r <;> decide

theorem lowerCh_digitCh {r : Nat} (h : r < 10) : lowerCh (digitCh r) = digitCh r := by
  interval_cases r <;> decide

theorem toDigitsAux_congr : ∀ f₁ f₂ n : Nat, n < f₁ → n < f₂ →
    toDigitsAux f₁ n = toDigitsAux f₂ n
  | 0, _, _, h₁, _ => by omega
  | _ + 1, 0, _, _, h₂ => by omega
  | f₁ + 1, f₂ + 1, n, h₁, h₂ => by
    by_cases h : n < 10
    · simp [toDigitsAux, h]
    · have hrec := toDigitsAux_congr f₁ f₂ (n / 10) (by omega) (by omega)
      simp [toDigitsAux, h, hrec]

theorem toDigits_unfold (n : Nat) :
    toDigits n =
      if n < 10 then [digitCh n] else toDigits (n / 10) ++ [digitCh (n % 10)] := by
  show toDigitsAux (n + 1) n = _
  by_cases h : n < 10
  · simp [toDigitsAux, h]
  · have e : toDigitsAux n (n / 10) = toDigitsAux (n / 10 + 1) (n / 10) :=
      toDigitsAux_congr _ _ _ (by omega) (by omega)
    simp only [toDigitsAux, h, if_false]
    rw [e]; rfl

theorem toDigits_ne_nil (n : Nat) : toDigits n ≠ [] := by
  rw [toDigits_unfold]
  by_cases h : n < 10 <;> simp [h]

theorem toDigits_mem (n : Nat) : ∀ c ∈ toDigits n, ∃ r, r < 10 ∧ c = digitCh r := by
  induction n using Nat.strong_induction_on with
  | _ n ih =>
    rw [toDigits_unfold]
    by_cases h : n < 10
    · simp only [h, if_true, List.mem_singleton]
      exact fun c hc => ⟨n, h, hc⟩
    · simp only [h, if_false]
      intro c hc
      rcases List.mem_append.mp hc with hm | hm
      · exact ih (n / 10) (by omega) c hm
      · exact ⟨n % 10, by omega, List.mem_singleton.mp hm⟩

theorem toDigits_all_digit (n : Nat) : ∀ c ∈ toDigits n, isDigitCh c = true := by
  intro c hc
  obtain ⟨r, hr, rfl⟩ := toDigits_mem n c hc
  exact isDigitCh_digitCh hr

theorem digitsVal_append_singleton (xs : List Char) (c : Char) :
    digitsVal (xs ++ [c]) = 10 * digitsVal xs + digitVal c := by
  simp [digitsVal, List.foldl_append]

theorem digitsVal_toDigits (n : Nat) : digitsVal (toDigits n) = n := by
  induction n using Nat.strong_induction_on with
  | _ n ih =>
    rw [toDigits_unfold]
    by_cases h : n < 10
    · simp only [h, if_true]
      show 10 * 0 + digitVal (digitCh n) = n
      rw [digitVal_digitCh h]; omega
    · simp only [h, if_false, digitsVal_append_singleton]
      rw [ih (n / 10) (by omega), digitVal_digitCh (by omega : n % 10 < 10)]
      omega

theorem digitsVal_cons_zero (xs : List Char) :
    digitsVal ('0' :: xs) = digitsVal xs := by
  simp [digitsVal, digitVal]

theorem pad2_ne_nil (n : Nat) : pad2 n ≠ [] := by
  unfold pad2
  by_cases h : n < 10 <;> simp [h, toDigits_ne_nil]

theorem pad2_mem (n : Nat) : ∀ c ∈ pad2 n, ∃ r, r < 10 ∧ c = digitCh r := by
  unfold pad2
  by_cases h : n < 10 <;> simp only [h, if_true, if_false]
  · intro c hc
    rcases List.mem_cons.mp hc with rfl | hm
    · exact ⟨0, by omega, rfl⟩
    · exact toDigits_mem n c hm
  · exact toDigits_mem n

theorem pad2_all_digit (n : Nat) : ∀ c ∈ pad2 n, isDigitCh c = true := by
  intro c hc
  obtain ⟨r, hr, rfl⟩ := pad2_mem n c hc
  exact isDigitCh_digitCh hr

theorem digitsVal_pad2 (n : Nat) : digitsVal (pad2 n) = n := by
  unfold pad2
  by_cases h : n < 10 <;> simp only [h, if_true, if_false]
  · rw [digitsVal_cons_zero, digitsVal_toDigits]
  · exact digitsVal_toDigits n

/-! ## Strip and lower as identities on clean strings -/

theorem pyStrip_eq_self {cs : List Char}
    (h1 : ∀ c, cs.head? = some c → isSpaceCh c = false)
    (h2 : ∀ c, cs.getLast? = some c → isSpaceCh c = false) :
    pyStrip cs = cs := by
  unfold pyStrip
  have e1 : cs.dropWhile isSpaceCh = cs := by
    cases cs with
    | nil => rfl
    | cons c t => exact dropWhile_cons_false t (h1 c rfl)
  rw [e1]
  have e2 : cs.reverse.dropWhile isSpaceCh = cs.reverse := by
    cases hrev : cs.reverse with
    | nil => rfl
    | cons c t =>
      have hl : cs.getLast? = some c := by
        rw [← List.head?_reverse, hrev]; rfl
      exact dropWhile_cons_false t (h2 c hl)
  rw [e2, List.reverse_reverse]

theorem pyLower_eq_self {cs : List Char} (h : ∀ c ∈ cs, lowerCh c = c) :
    pyLower cs = cs := by
  unfold pyLower
  rw [List.map_congr_left h]
  simp

/-! ## The H:M:S matcher on well-formed three-block strings -/

theorem hmsMatch_blocks (g1 g2 g3 : List Char)
    (a1 : ∀ c ∈ g1, isDigitCh c = true) (a2 : ∀ c ∈ g2, isDigitCh c = true)
    (a3 : ∀ c ∈ g3, isDigitCh c = true)
    (n1 : g1 ≠ []) (n2 : g2 ≠ []) (n3 : g3 ≠ []) :
    hmsMatch (g1 ++ (':' :: (g2 ++ (':' :: g3))))
      = some (digitsVal g1, digitsVal g2, digitsVal g3) := by
  have hcolon : isDigitCh ':' = false := by decide
  simp only [hmsMatch]
  rw [takeWhile_append_all g1 (':' :: (g2 ++ (':' :: g3))) a1,
    takeWhile_cons_false _ hcolon,
    dropWhile_append_all g1 (':' :: (g2 ++ (':' :: g3))) a1,
    dropWhile_cons_false _ hcolon]
  simp only [List.append_nil, if_neg (by simpa using n1)]
  rw [takeWhile_append_all g2 (':' :: g3) a2, takeWhile_cons_false _ hcolon,
    dropWhile_append_all g2 (':' :: g3) a2, dropWhile_cons_false _ hcolon]
  simp only [List.append_nil, if_neg (by simpa using n2)]
  rw [takeWhile_all g3 a3, dropWhile_all g3 a3]
  simp [n3]

/-! ## Token-scanner lemmas -/

theorem isUnitCh_cases {u : Char} (h : isUnitCh u = true) :
    u = 'd' ∨ u = 'h' ∨ u = 'm' := by
  simpa [isUnitCh, Bool.or_eq_true, decide_eq_true_eq, or_assoc] using h

theorem unit_not_digit {u : Char} (h : isUnitCh u = true) : isDigitCh u = false := by
  rcases isUnitCh_cases h with rfl | rfl | rfl <;> decide

theorem unit_not_space {u : Char} (h : isUnitCh u = true) : isSpaceCh u = false := by
  rcases isUnitCh_cases h with rfl | rfl | rfl <;> decide

theorem unit_not_colon {u : Char} (h : isUnitCh u = true) : u ≠ ':' := by
  rcases isUnitCh_cases h with rfl | rfl | rfl <;> decide

theorem dropWhile_length_le {α : Type} {p : α → Bool} : ∀ xs : List α,
    (xs.dropWhile p).length ≤ xs.length
  | [] => le_refl _
  | x :: xs => by
    by_cases h : p x
    · rw [List.dropWhile_cons_of_pos h]
      exact le_trans (dropWhile_length_le xs) (by simp)
    · rw [List.dropWhile_cons_of_neg (by simp [h])]

theorem findTokensAux_cons (f : Nat) (c : Char) (rest : List Char) :
    findTokensAux (f + 1) (c :: rest) =
      if isDigitCh c then
        match ((c :: rest).dropWhile isDigitCh).dropWhile isSpaceCh with
        | u :: r3 =>
          if isUnitCh u then
            (digitsVal ((c :: rest).takeWhile isDigitCh), u) :: findTokensAux f r3
          else findTokensAux f rest
        | [] => findTokensAux f rest
      else findTokensAux f rest := rfl

theorem findTokensAux_congr : ∀ f₁ f₂ : Nat, ∀ cs : List Char,
    cs.length ≤ f₁ → cs.length ≤ f₂ → findTokensAux f₁ cs = findTokensAux f₂ cs
  | 0, 0, _, _, _ => rfl
  | 0, _ + 1, cs, h₁, _ => by
    have : cs = [] := List.length_eq_zero.mp (by omega)
    subst this; rfl
  | _ + 1, 0, cs, _, h₂ => by
    have : cs = [] := List.length_eq_zero.mp (by omega)
    subst this; rfl
  | _ + 1, _ + 1, [], _, _ => rfl
  | f₁ + 1, f₂ + 1, c :: rest, h₁, h₂ => by
    have hlen : rest.length ≤ f₁ ∧ rest.length ≤ f₂ := by
      simp only [List.length_cons] at h₁ h₂; omega
    rw [findTokensAux_cons f₁, findTokensAux_cons f₂]
    by_cases hc : isDigitCh c
    · simp only [hc, if_true]
      have hdw : ((c :: rest).dropWhile isDigitCh).length ≤ rest.length := by
        rw [List.dropWhile_cons_of_pos hc]
        exact dropWhile_length_le _
      have hdw2 :
          (((c :: rest).dropWhile isDigitCh).dropWhile isSpaceCh).length
            ≤ rest.length :=
        le_trans (dropWhile_length_le _) hdw
      cases hr2 : ((c :: rest).dropWhile isDigitCh).dropWhile isSpaceCh with
      | nil => exact findTokensAux_congr f₁ f₂ rest hlen.1 hlen.2
      | cons u r3 =>
        have hr3 : r3.length ≤ rest.length := by
          have := hdw2; rw [hr2] at this
          simp only [List.length_cons] at this; omega
        by_cases hu : isUnitCh u
        · simp only [hu, if_true]
          rw [findTokensAux_congr f₁ f₂ r3 (by omega) (by omega)]
        · simp only [hu, if_false]
          exact findTokensAux_congr f₁ f₂ rest hlen.1 hlen.2
    · simp only [hc, if_false]
      exact findTokensAux_congr f₁ f₂ rest hlen.1 hlen.2

theorem findTokens_cons_skip {c : Char} (rest : List Char)
    (hc : isDigitCh c = false) : findTokens (c :: rest) = findTokens rest := by
  show findTokensAux (rest.length + 1) (c :: rest) = _
  rw [findTokensAux_cons, hc]
  rfl

theorem findTokens_token (ds : List Char) (u : Char) (rest : List Char)
    (hds : ds ≠ []) (hall : ∀ c ∈ ds, isDigitCh c = true)
    (hu : isUnitCh u = true) :
    findTokens (ds ++ u :: rest) = (digitsVal ds, u) :: findTokens rest := by
  cases ds with
  | nil => exact absurd rfl hds
  | cons d ds =>
    have hd : isDigitCh d = true := hall d (by simp)
    have e1 : ((d :: ds) ++ u :: rest).takeWhile isDigitCh = d :: ds := by
      rw [takeWhile_append_all (d :: ds) (u :: rest) hall,
        takeWhile_cons_false _ (unit_not_digit hu), List.append_nil]
    have e2 : ((d :: ds) ++ u :: rest).dropWhile isDigitCh = u :: rest := by
      rw [dropWhile_append_all (d :: ds) (u :: rest) hall,
        dropWhile_cons_false _ (unit_not_digit hu)]
    show findTokensAux ((ds ++ u :: rest).length + 1) ((d :: ds) ++ u :: rest) = _
    rw [List.cons_append, findTokensAux_cons, ← List.cons_append, hd, e1, e2,
      dropWhile_cons_false _ (unit_not_space hu)]
    simp only [hu, if_true, if_pos rfl]
    rw [findTokensAux_congr (ds ++ u :: rest).length rest.length rest
      (by simp; omega) (le_refl _)]
    rfl

/-! ## Rendered token strings -/

theorem joinSpace_cons_shape (t : Nat × Char) (ts : List (Nat × Char)) :
    ∃ rest : List Char,
      joinSpace ((t :: ts).map renderPart) = toDigits t.1 ++ t.2 :: rest := by
  cases ts with
  | nil => exact ⟨[], by simp [joinSpace, renderPart]⟩
  | cons t' ts =>
    refine ⟨' ' :: joinSpace ((t' :: ts).map renderPart), ?_⟩
    simp [joinSpace, renderPart, List.append_assoc]

theorem joinSpace_cons_ne (t : Nat × Char) (ts : List (Nat × Char)) :
    joinSpace ((t :: ts).map renderPart) ≠ [] := by
  obtain ⟨rest, hshape⟩ := joinSpace_cons_shape t ts
  rw [hshape]
  simp [toDigits_ne_nil]

theorem findTokens_join : ∀ ts : List (Nat × Char),
    (∀ t ∈ ts, isUnitCh t.2 = true) → ts ≠ [] →
    findTokens (joinSpace (ts.map renderPart)) = ts
  | [], _, h => absurd rfl h
  | [t], hu, _ => by
    have ht : isUnitCh t.2 = true := hu t (by simp)
    have e : joinSpace ([t].map renderPart) = toDigits t.1 ++ t.2 :: [] := by
      simp [joinSpace, renderPart]
    rw [e, findTokens_token _ _ _ (toDigits_ne_nil _) (toDigits_all_digit _) ht,
      digitsVal_toDigits]
    rfl
  | t :: t' :: ts, hu, _ => by
    have ht : isUnitCh t.2 = true := hu t (by simp)
    have e : joinSpace ((t :: t' :: ts).map renderPart)
        = toDigits t.1 ++ t.2 :: (' ' :: joinSpace ((t' :: ts).map renderPart)) := by
      simp [joinSpace, renderPart, List.append_assoc]
    rw [e, findTokens_token _ _ _ (toDigits_ne_nil _) (toDigits_all_digit _) ht,
      findTokens_cons_skip _ (by decide),
      findTokens_join (t' :: ts) (fun x hx => hu x (by simp [hx])) (by simp),
      digitsVal_toDigits]

theorem hmsMatch_token_start (ds : List Char) (u : Char) (rest : List Char)
    (hds : ds ≠ []) (hall : ∀ c ∈ ds, isDigitCh c = true)
    (hu : isUnitCh u = true) :
    hmsMatch (ds ++ u :: rest) = none := by
  simp only [hmsMatch]
  rw [takeWhile_append_all ds (u :: rest) hall,
    takeWhile_cons_false _ (unit_not_digit hu), List.append_nil,
    dropWhile_append_all ds (u :: rest) hall,
    dropWhile_cons_false _ (unit_not_digit hu)]
  rw [if_neg hds]
  rcases isUnitCh_cases hu with rfl | rfl | rfl <;> rfl

theorem renderPart_mem_clean (t : Nat × Char) (hu : isUnitCh t.2 = true) :
    ∀ c ∈ renderPart t, lowerCh c = c := by
  intro c hc
  rcases List.mem_append.mp hc with h | h
  · obtain ⟨r, hr, rfl⟩ := toDigits_mem _ _ h
    exact lowerCh_digitCh hr
  · have hct : c = t.2 := by simpa using h
    subst hct
    rcases isUnitCh_cases hu with h | h | h <;> rw [h] <;> decide

theorem joinSpace_mem_clean : ∀ ts : List (Nat × Char),
    (∀ t ∈ ts, isUnitCh t.2 = true) →
    ∀ c ∈ joinSpace (ts.map renderPart), lowerCh c = c
  | [], _, c, hc => by simp [joinSpace] at hc
  | [t], hu, c, hc => by
    have e : joinSpace ([t].map renderPart) = renderPart t := by
      simp [joinSpace]
    rw [e] at hc
    exact renderPart_mem_clean t (hu t (by simp)) c hc
  | t :: t' :: ts, hu, c, hc => by
    have e : joinSpace ((t :: t' :: ts).map renderPart)
        = renderPart t ++ ' ' :: joinSpace ((t' :: ts).map renderPart) := by
      simp [joinSpace]
    rw [e] at hc
    rcases List.mem_append.mp hc with h | h
    · exact renderPart_mem_clean t (hu t (by simp)) c h
    · rcases List.mem_cons.mp h with rfl | h
      · decide
      · exact joinSpace_mem_clean (t' :: ts)
          (fun x hx => hu x (by simp [hx])) c h

theorem joinSpace_head_nonspace (t : Nat × Char) (ts : List (Nat × Char)) :
    ∀ c, (joinSpace ((t :: ts).map renderPart)).head? = some c →
      isSpaceCh c = false := by
  obtain ⟨rest, hshape⟩ := joinSpace_cons_shape t ts
  rw [hshape]
  intro c hc
  cases hd : toDigits t.1 with
  | nil => exact absurd hd (toDigits_ne_nil _)
  | cons a l =>
    rw [hd, List.cons_append] at hc
    have hca : c = a := by simpa using hc.symm
    subst hca
    obtain ⟨r, hr, rfl⟩ := toDigits_mem t.1 c (by rw [hd]; simp)
    exact isSpaceCh_digitCh hr

theorem joinSpace_last_nonspace : ∀ ts : List (Nat × Char), ts ≠ [] →
    (∀ t ∈ ts, isUnitCh t.2 = true) →
    ∀ c, (joinSpace (ts.map renderPart)).getLast? = some c → isSpaceCh c = false
  | [], h, _, _, _ => absurd rfl h
  | [t], _, hu, c, hc => by
    have e : joinSpace ([t].map renderPart) = toDigits t.1 ++ [t.2] := by
      simp [joinSpace, renderPart]
    rw [e, List.getLast?_concat] at hc
    have hct : c = t.2 := by simpa using hc.symm
    subst hct
    exact unit_not_space (hu t (by simp))
  | t :: t' :: ts, _, hu, c, hc => by
    have e : joinSpace ((t :: t' :: ts).map renderPart)
        = renderPart t ++ ' ' :: joinSpace ((t' :: ts).map renderPart) := by
      simp [joinSpace]
    have hne : joinSpace ((t' :: ts).map renderPart) ≠ [] := joinSpace_cons_ne t' ts
    rw [e, List.getLast?_append_of_ne_nil _ (by simp)] at hc
    rw [show (' ' :: joinSpace ((t' :: ts).map renderPart))
        = [' '] ++ joinSpace ((t' :: ts).map renderPart) from rfl,
      List.getLast?_append_of_ne_nil _ hne] at hc
    exact joinSpace_last_nonspace (t' :: ts) (by simp)
      (fun x hx => hu x (by simp [hx])) c hc

/-! ## Round-trip of the human rendering -/

theorem humanParts_eq_map (m : Nat) :
    humanParts m = (humanTokens m).map renderPart := by
  unfold humanParts humanTokens
  by_cases h1 : m / 1440 ≠ 0 <;> by_cases h2 : (m % 1440) / 60 ≠ 0 <;>
    by_cases h3 : m % 60 ≠ 0 <;> simp [h1, h2, h3, renderPart]

theorem humanTokens_units (m : Nat) :
    ∀ t ∈ humanTokens m, isUnitCh t.2 = true := by
  intro t ht
  simp only [humanTokens, List.mem_append] at ht
  rcases ht with (h | h) | h <;> split at h <;> simp_all [isUnitCh]

theorem humanTokens_ne_nil {m : Nat} (h : m ≠ 0) : humanTokens m ≠ [] := by
  unfold humanTokens
  by_cases h1 : m / 1440 ≠ 0 <;> by_cases h2 : (m % 1440) / 60 ≠ 0 <;>
    by_cases h3 : m % 60 ≠ 0 <;> (simp [h1, h2, h3]; try omega)

theorem tokensTotal_humanTokens (m : Nat) : tokensTotal (humanTokens m) = m := by
  unfold humanTokens tokensTotal
  by_cases h1 : m / 1440 ≠ 0 <;> by_cases h2 : (m % 1440) / 60 ≠ 0 <;>
    by_cases h3 : m % 60 ≠ 0 <;>
    simp [h1, h2, h3, unitWeight] <;> omega

theorem parse_human_roundtrip (m : Nat) :
    parse_to_minutes (minutes_to_human m) = some m := by
  by_cases hm : m = 0
  · subst hm; decide
  · have hts : humanTokens m ≠ [] := humanTokens_ne_nil hm
    have hus := humanTokens_units m
    obtain ⟨t, ts', hcons⟩ : ∃ t ts', humanTokens m = t :: ts' := by
      cases h : humanTokens m with
      | nil => exact absurd h hts
      | cons a b => exact ⟨a, b, rfl⟩
    have hparts : humanParts m = (humanTokens m).map renderPart :=
      humanParts_eq_map m
    have hpne : humanParts m ≠ [] := by
      rw [hparts, hcons]; simp
    have hdata : (minutes_to_human m).data
        = joinSpace ((humanTokens m).map renderPart) := by
      unfold minutes_to_human
      rw [if_neg hm, if_neg hpne, hparts]
    have hjne : joinSpace ((humanTokens m).map renderPart) ≠ [] := by
      rw [hcons]; exact joinSpace_cons_ne t ts'
    have hstrip : pyStrip (joinSpace ((humanTokens m).map renderPart))
        = joinSpace ((humanTokens m).map renderPart) := by
      apply pyStrip_eq_self
      · rw [hcons]; exact joinSpace_head_nonspace t ts'
      · rw [hcons]
        exact joinSpace_last_nonspace (t :: ts') (by simp)
          (by rw [← hcons]; exact hus)
    have hlower : pyLower (joinSpace ((humanTokens m).map renderPart))
        = joinSpace ((humanTokens m).map renderPart) :=
      pyLower_eq_self (joinSpace_mem_clean (humanTokens m) hus)
    have hhms : hmsMatch (joinSpace ((humanTokens m).map renderPart)) = none := by
      rw [hcons]
      obtain ⟨rest, hshape⟩ := joinSpace_cons_shape t ts'
      rw [hshape]
      exact hmsMatch_token_start _ _ _ (toDigits_ne_nil _)
        (toDigits_all_digit _) (hus t (by rw [hcons]; simp))
    have hfind : findTokens (joinSpace ((humanTokens m).map renderPart))
        = humanTokens m := findTokens_join (humanTokens m) hus hts
    show parseStripped (pyLower (pyStrip (minutes_to_human m).data)) = some m
    rw [hdata, hstrip, hlower]
    unfold parseStripped
    rw [if_neg hjne, hhms, hfind]
    rw [if_pos hts]
    rw [tokensTotal_humanTokens]

/-! ## Round-trip of the two wire formats -/

theorem parse_wire (g1 g2 g3 : List Char)
    (a1 : ∀ c ∈ g1, ∃ r, r < 10 ∧ c = digitCh r)
    (a2 : ∀ c ∈ g2, ∃ r, r < 10 ∧ c = digitCh r)
    (a3 : ∀ c ∈ g3, ∃ r, r < 10 ∧ c = digitCh r)
    (n1 : g1 ≠ []) (n2 : g2 ≠ []) (n3 : g3 ≠ []) :
    parseStripped (pyLower (pyStrip (g1 ++ (':' :: (g2 ++ (':' :: g3))))))
      = some (digitsVal g1 * 60 + digitsVal g2) := by
  have d1 : ∀ c ∈ g1, isDigitCh c = true := by
    intro c hc; obtain ⟨r, hr, rfl⟩ := a1 c hc; exact isDigitCh_digitCh hr
  have d2 : ∀ c ∈ g2, isDigitCh c = true := by
    intro c hc; obtain ⟨r, hr, rfl⟩ := a2 c hc; exact isDigitCh_digitCh hr
  have d3 : ∀ c ∈ g3, isDigitCh c = true := by
    intro c hc; obtain ⟨r, hr, rfl⟩ := a3 c hc; exact isDigitCh_digitCh hr
  have hstrip : pyStrip (g1 ++ (':' :: (g2 ++ (':' :: g3))))
      = g1 ++ (':' :: (g2 ++ (':' :: g3))) := by
    apply pyStrip_eq_self
    · intro c hc
      cases g1 with
      | nil => exact absurd rfl n1
      | cons a l =>
        rw [List.cons_append] at hc
        have hca : c = a := by simpa using hc.symm
        subst hca
        obtain ⟨r, hr, rfl⟩ := a1 c (by simp)
        exact isSpaceCh_digitCh hr
    · intro c hc
      rw [List.getLast?_append_of_ne_nil _ (by simp),
        show (':' :: (g2 ++ (':' :: g3))) = [':'] ++ (g2 ++ (':' :: g3)) from rfl,
        List.getLast?_append_of_ne_nil _ (by simp),
        List.getLast?_append_of_ne_nil _ (by simp),
        show (':' :: g3) = [':'] ++ g3 from rfl,
        List.getLast?_append_of_ne_nil _ n3] at hc
      obtain ⟨r, hr, rfl⟩ := a3 c (List.mem_of_getLast?_eq_some hc)
      exact isSpaceCh_digitCh hr
  have hlower : pyLower (g1 ++ (':' :: (g2 ++ (':' :: g3))))
      = g1 ++ (':' :: (g2 ++ (':' :: g3))) := by
    apply pyLower_eq_self
    intro c hc
    rcases List.mem_append.mp hc with h | h
    · obtain ⟨r, hr, rfl⟩ := a1 c h
      exact lowerCh_digitCh hr
    · rcases List.mem_cons.mp h with rfl | h
      · decide
      · rcases List.mem_append.mp h with h | h
        · obtain ⟨r, hr, rfl⟩ := a2 c h
          exact lowerCh_digitCh hr
        · rcases List.mem_cons.mp h with rfl | h
          · decide
          · obtain ⟨r, hr, rfl⟩ := a3 c h
            exact lowerCh_digitCh hr
  rw [hstrip, hlower]
  unfold parseStripped
  rw [if_neg (by simp [n1]), hmsMatch_blocks g1 g2 g3 d1 d2 d3 n1 n2 n3]

theorem digitCh_zero : '0' = digitCh 0 := by decide

theorem parse_hms_roundtrip (m : Nat) :
    parse_to_minutes (minutes_to_hms m) = some m := by
  have hdata : (minutes_to_hms m).data
      = toDigits (m / 60) ++ (':' :: (toDigits (m % 60) ++ (':' :: ['0']))) := by
    simp [minutes_to_hms, List.append_assoc]
  have h3 : ∀ c ∈ ['0'], ∃ r, r < 10 ∧ c = digitCh r := by
    intro c hc
    have : c = '0' := by simpa using hc
    subst this
    exact ⟨0, by omega, digitCh_zero⟩
  show parseStripped (pyLower (pyStrip (minutes_to_hms m).data)) = some m
  rw [hdata, parse_wire _ _ _ (toDigits_mem _) (toDigits_mem _) h3
    (toDigits_ne_nil _) (toDigits_ne_nil _) (by simp),
    digitsVal_toDigits, digitsVal_toDigits]
  have : m / 60 * 60 + m % 60 = m := by omega
  rw [this]

theorem parse_slurm_small {m : Nat} (hm : m < 1440) :
    parse_to_minutes (minutes_to_slurm m) = some m := by
  have hh : ¬ 24 ≤ m / 60 := by omega
  have hdata : (minutes_to_slurm m).data
      = pad2 (m / 60) ++ (':' :: (pad2 (m % 60) ++ (':' :: ['0', '0']))) := by
    simp [minutes_to_slurm, hh, List.append_assoc]
  have h3 : ∀ c ∈ ['0', '0'], ∃ r, r < 10 ∧ c = digitCh r := by
    intro c hc
    have : c = '0' := by
      rcases List.mem_cons.mp hc with rfl | h
      · rfl
      · simpa using h
    subst this
    exact ⟨0, by omega, digitCh_zero⟩
  show parseStripped (pyLower (pyStrip (minutes_to_slurm m).data)) = some m
  rw [hdata, parse_wire _ _ _ (pad2_mem _) (pad2_mem _) h3
    (pad2_ne_nil _) (pad2_ne_nil _) (by simp),
    digitsVal_pad2, digitsVal_pad2]
  have : m / 60 * 60 + m % 60 = m := by omega
  rw [this]

/-! ## Listing-parse lemmas (squeue) -/

theorem squeueArms_none_of_short : ∀ parts : List (List Char),
    parts.length < 4 → squeueArms parts = none
  | [], _ => rfl
  | [_], _ => rfl
  | [_, _], _ => rfl
  | [_, _, _], _ => rfl
  | _ :: _ :: _ :: _ :: _, h => by simp at h; omega

theorem squeueArms_isSome_of_long : ∀ parts : List (List Char),
    4 ≤ parts.length → (squeueArms parts).isSome = true
  | [], h => by simp at h
  | [_], h => by simp at h
  | [_, _], h => by simp at h
  | [_, _, _], h => by simp at h
  | _ :: _ :: _ :: _ :: [], _ => rfl
  | _ :: _ :: _ :: _ :: [_], _ => rfl
  | _ :: _ :: _ :: _ :: [_, _], _ => rfl
  | _ :: _ :: _ :: _ :: [_, _, _], _ => rfl
  | _ :: _ :: _ :: _ :: _ :: _ :: _ :: _ :: _, _ => rfl

/-! ## Listing-parse lemmas (oarstat blocks) -/

theorem headerId_some_ne_nil {l ds : List Char} (h : headerId l = some ds) :
    ds ≠ [] := by
  simp only [headerId] at h
  split at h
  · split at h
    · split at h
      · exact absurd h (by simp)
      · have hds := Option.some.inj h
        subst hds
        assumption
    · exact absurd h (by simp)
  · exact absurd h (by simp)

theorem oarUpdate_job_id (j : OARJob) (line : List Char) :
    (oarUpdate j line).job_id = j.job_id := by
  unfold oarUpdate
  repeat' split
  all_goals rfl

theorem newOARJob_id_ne {ds : List Char} (h : ds ≠ []) :
    (newOARJob ds).job_id ≠ "" := by
  simp only [newOARJob, ne_eq]
  intro he
  exact h (by simpa [String.ext_iff] using he)

theorem foldl_oarUpdate_job_id (j : OARJob) :
    ∀ ls : List (List Char), (ls.foldl oarUpdate j).job_id = j.job_id := by
  intro ls
  induction ls generalizing j with
  | nil => rfl
  | cons l ls ih => rw [List.foldl_cons, ih, oarUpdate_job_id]

theorem parseOarAux_some : ∀ (ls : List (List Char)) (j : OARJob),
    j.job_id ≠ "" →
    parseOarAux (some j) ls
      = (ls.takeWhile fun l => (headerId l).isNone).foldl oarUpdate j
          :: parseOarAux none (ls.dropWhile fun l => (headerId l).isNone)
  | [], j, hj => by
    simp [parseOarAux, hj]
  | l :: ls, j, hj => by
    cases hh : headerId l with
    | some ds =>
      have hfalse : ((headerId l).isNone : Bool) = false := by rw [hh]; rfl
      rw [List.takeWhile_cons, List.dropWhile_cons]
      simp only [hfalse, if_false, List.foldl_nil]
      show parseOarAux (some j) (l :: ls) = j :: parseOarAux none (l :: ls)
      simp only [parseOarAux, hh, hj, if_pos, ne_eq, not_false_eq_true, if_true]
    | none =>
      have htrue : ((headerId l).isNone : Bool) = true := by rw [hh]; rfl
      rw [List.takeWhile_cons, List.dropWhile_cons]
      simp only [htrue, if_true, List.foldl_cons]
      have hj2 : (oarUpdate j l).job_id ≠ "" := by
        rw [oarUpdate_job_id]; exact hj
      rw [← parseOarAux_some ls (oarUpdate j l) hj2]
      simp only [parseOarAux, hh]

theorem parseOarAux_none_cons_header {l ds : List Char}
    (ls : List (List Char)) (h : headerId l = some ds) :
    parseOarAux none (l :: ls) = parseOarAux (some (newOARJob ds)) ls := by
  simp only [parseOarAux, h]

theorem parseOarAux_none_cons_skip {l : List Char}
    (ls : List (List Char)) (h : headerId l = none) :
    parseOarAux none (l :: ls) = parseOarAux none ls := by
  simp only [parseOarAux, h]

theorem parseOarAux_none_length : ∀ ls : List (List Char),
    (parseOarAux none ls).length = ls.countP fun l => (headerId l).isSome
  | [] => rfl
  | l :: ls => by
    cases hh : headerId l with
    | some ds =>
      rw [parseOarAux_none_cons_header ls hh,
        parseOarAux_some ls (newOARJob ds) (newOARJob_id_ne (headerId_some_ne_nil hh)),
        List.countP_cons]
      simp only [hh, Option.isSome_some, if_pos, List.length_cons]
      have e1 := parseOarAux_none_length
        (ls.dropWhile fun l => (headerId l).isNone)
      have e2 : ls.countP (fun l => (headerId l).isSome)
          = ((ls.takeWhile fun l => (headerId l).isNone)
              ++ ls.dropWhile fun l => (headerId l).isNone).countP
            fun l => (headerId l).isSome := by
        rw [List.takeWhile_append_dropWhile]
      rw [e1, e2, List.countP_append]
      have e3 : (ls.takeWhile fun l => (headerId l).isNone).countP
          (fun l => (headerId l).isSome) = 0 := by
        rw [List.countP_eq_zero]
        intro a ha
        have := List.mem_takeWhile_imp ha
        simp only [Option.isNone_iff_eq_none] at this
        simp [this]
      omega
    | none =>
      rw [parseOarAux_none_cons_skip ls hh, List.countP_cons]
      simp only [hh, Option.isSome_none]
      rw [parseOarAux_none_length ls]
      rfl
termination_by ls => ls.length
decreasing_by
  all_goals
    have := dropWhile_length_le (p := fun l => (headerId l).isNone) ls
    simp only [List.length_cons]
    omega

/-! ## Endpoint-resolution loop lemmas -/

theorem resolveLoop_count : ∀ (n i : Nat) (get : Nat → String),
    (resolveLoop get i n).2.countP isQueryUrlEv ≤ n
  | 0, _, _ => by simp [resolveLoop]
  | n + 1, i, get => by
    simp only [resolveLoop]
    by_cases h : get i = ""
    · rw [if_neg (by simp [h])]
      have ih := resolveLoop_count n (i + 1) get
      simp only [List.countP_cons]
      simp [isQueryUrlEv]
      omega
    · rw [if_pos h]
      simp [isQueryUrlEv]

theorem resolveLoop_no_cancel : ∀ (n i : Nat) (get : Nat → String),
    ConnEvent.cancelJob ∉ (resolveLoop get i n).2
  | 0, _, _ => by simp [resolveLoop]
  | n + 1, i, get => by
    simp only [resolveLoop]
    by_cases h : get i = ""
    · rw [if_neg (by simp [h])]
      have ih := resolveLoop_no_cancel n (i + 1) get
      simp only [List.mem_cons]
      rintro (h1 | h1 | h1) <;> first | exact absurd h1 (by simp) | exact ih h1
    · rw [if_pos h]
      simp

theorem resolveLoop_all_empty : ∀ (n i : Nat) (get : Nat → String),
    (∀ k, k < n → get (i + k) = "") →
    resolveLoop get i n
      = ("", (((List.range n).map
          fun k => [ConnEvent.queryUrl (i + k), ConnEvent.sleepSecs 2])).flatten)
  | 0, i, get, _ => by simp [resolveLoop]
  | n + 1, i, get, h => by
    have h0 : get i = "" := by simpa using h 0 (by omega)
    have ih := resolveLoop_all_empty n (i + 1) get
      (fun k hk => by
        have := h (k + 1) (by omega)
        rw [show i + 1 + k = i + (k + 1) from by omega]
        exact this)
    simp only [resolveLoop]
    rw [if_neg (by simp [h0]), ih]
    rw [List.range_succ_eq_map]
    simp only [List.map_cons, List.map_map, List.flatten, Nat.add_zero]
    have e : ((fun k => [ConnEvent.queryUrl (i + k), ConnEvent.sleepSecs 2])
          ∘ Nat.succ)
        = fun k => [ConnEvent.queryUrl (i + 1 + k), ConnEvent.sleepSecs 2] := by
      funext k
      simp only [Function.comp]
      rw [show i + Nat.succ k = i + 1 + k from by omega]
    rw [e]
    rfl

/-! ## Decode-path lemmas -/

theorem pyOrZero_eq (c : Int) : pyOrZero c = c := by
  unfold pyOrZero
  by_cases h : c = 0 <;> simp [h]

theorem univNewlines_cons_ne {c : Char} (rest : List Char) (h : c ≠ '\r') :
    univNewlines (c :: rest) = c :: univNewlines rest := by
  rw [univNewlines.eq_def]
  split <;> rename_i heq
  case _ => exact absurd heq (by simp)
  all_goals rw [List.cons.injEq] at heq
  all_goals first
    | exact absurd heq.1 h
    | rw [← heq.1, ← heq.2]

theorem univNewlines_eq_self : ∀ cs : List Char, '\r' ∉ cs → univNewlines cs = cs
  | [], _ => rfl
  | c :: rest, h => by
    have hc : c ≠ '\r' := fun e => h (by simp [e])
    rw [univNewlines_cons_ne rest hc,
      univNewlines_eq_self rest (fun hm => h (by simp [hm]))]

theorem ascii_ofNat_cr {b : Nat} (hb : b < 128) (h : Char.ofNat b = '\r') :
    b = 13 := by
  interval_cases b <;> first | rfl | exact absurd h (by decide)

theorem decodeAscii_no_cr {bs : List Nat} (hb : ∀ b ∈ bs, b < 128)
    (h13 : 13 ∉ bs) : '\r' ∉ decodeAscii bs := by
  intro hmem
  obtain ⟨b, hbmem, hbeq⟩ := List.mem_map.mp hmem
  have hb13 := ascii_ofNat_cr (hb b hbmem) hbeq
  exact h13 (hb13 ▸ hbmem)

/-! ## Claim theorems -/

/-- C1: the Duration Codec worked examples of the spec, with the value
of `parse_to_minutes "1d 6h 30m"` corrected from 1890 to 1830 (the
weights d=1440, h=60, m=1 give 1440 + 360 + 30 = 1830). -/
theorem c1_duration_worked_examples :
    parse_to_minutes "90" = some 5400 ∧
    parse_to_minutes "1d 6h 30m" = some 1830 ∧
    parse_to_minutes "" = none ∧
    parse_to_minutes "abc" = none ∧
    minutes_to_slurm 1500 = "1-01:00:00" ∧
    minutes_to_hms 90 = "1:30:0" :=
  ⟨by decide, by decide, by decide, by decide, by decide, by decide⟩

/-- C1 counterexample: the spec example value 1890 is not what the
code computes for `"1d 6h 30m"`. -/
theorem c1_example_value_refuted :
    parse_to_minutes "1d 6h 30m" ≠ some 1890 := by decide

/-- C2 counterexample: the wire-a (SLURM) encoding of 1500 minutes is
`"1-01:00:00"`, whose day prefix matches none of the accepted input
grammars, so the round trip loses the value entirely. -/
theorem c2_wire_a_roundtrip_fails :
    minutes_to_slurm 1500 = "1-01:00:00" ∧
    parse_to_minutes (minutes_to_slurm 1500) = none :=
  ⟨by decide, by decide⟩

/-- C2 (amended): the human rendering and the wire-b (`H:M:0`)
rendering round-trip at minute granularity for every non-negative
minute count, the wire-a (SLURM) rendering round-trips exactly below
one day (1440 minutes), and every parseable string round-trips through
the human rendering. -/
theorem c2_roundtrip_amended :
    (∀ m : Nat, parse_to_minutes (minutes_to_human m) = some m) ∧
    (∀ m : Nat, parse_to_minutes (minutes_to_hms m) = some m) ∧
    (∀ m : Nat, m < 1440 → parse_to_minutes (minutes_to_slurm m) = some m) ∧
    (∀ (s : String) (m : Nat), parse_to_minutes s = some m →
      parse_to_minutes (minutes_to_human m) = some m) :=
  ⟨parse_human_roundtrip, parse_hms_roundtrip,
    fun _ hm => parse_slurm_small hm,
    fun _ m _ => parse_human_roundtrip m⟩

/-- C2 witness: the amended round-trip applied at concrete inputs. -/
theorem c2_roundtrip_amended_witness :
    parse_to_minutes (minutes_to_slurm 90) = some 90 ∧
    parse_to_minutes (minutes_to_human 1890) = some 1890 :=
  ⟨c2_roundtrip_amended.2.2.1 90 (by decide),
    c2_roundtrip_amended.2.2.2 "1d 7h 30m" 1890 (by decide)⟩

/-- C3: the Remote Executor returns a result triple for every
behaviour of the underlying process; on timeout both variants return
exit status 1 with the synthetic timed-out message (and the `async`
variant kills the process); on local start failure both return exit
status 1 with the exception text as stderr. -/
theorem c3_executor_never_raises :
    (∀ b : SSHBehavior, ∃ r : RemoteCommandResult, run_sync b = r) ∧
    run_sync .timesOut = ⟨"", "SSH command timed out", 1⟩ ∧
    (run .timesOut).result = ⟨"", "SSH command timed out", 1⟩ ∧
    (run .timesOut).killed = true ∧
    (∀ msg : String, run_sync (.startFail msg) = ⟨"", msg, 1⟩) ∧
    (∀ msg : String, (run (.startFail msg)).result = ⟨"", msg, 1⟩) :=
  ⟨fun b => ⟨run_sync b, rfl⟩, rfl, rfl, rfl, fun _ => rfl, fun _ => rfl⟩

/-- C4 counterexample: the same process bytes `x\r\n` (120, 13, 10)
give stdout `"x\n"` from the blocking variant (universal-newline
translation of `text=True`) but `"x\r\n"` from the suspending variant
(plain `.decode`), so the two variants do not return the same triple
for every byte behaviour. -/
theorem c4_newline_decode_differs :
    (run_bytes (.completes [120, 13, 10] [] 0)).result.stdout = "x\r\n" ∧
    (run_sync_bytes (.completes [120, 13, 10] [] 0)).stdout = "x\n" ∧
    (run_bytes (.completes [120, 13, 10] [] 0)).result
      ≠ run_sync_bytes (.completes [120, 13, 10] [] 0) :=
  ⟨by decide, by decide, by decide⟩

/-- C4 (amended): the two executor variants return the same triple on
timeout and on local start failure; on completion both return the
decoded outputs with the same exit status (returncode-or-0 equals the
returncode), but the blocking variant additionally applies
universal-newline translation to both streams, so on ASCII output the
triples agree exactly when the output bytes contain no carriage
return. -/
theorem c4_run_variants_amended :
    (run_bytes .timesOut).result = run_sync_bytes .timesOut ∧
    (∀ msg : String,
      (run_bytes (.startFail msg)).result = run_sync_bytes (.startFail msg)) ∧
    (∀ (o e : List Nat) (c : Int),
      run_sync_bytes (.completes o e c)
        = ⟨⟨univNewlines (decodeAscii o)⟩, ⟨univNewlines (decodeAscii e)⟩, c⟩ ∧
      (run_bytes (.completes o e c)).result
        = ⟨⟨decodeAscii o⟩, ⟨decodeAscii e⟩, c⟩) ∧
    (∀ (o e : List Nat) (c : Int),
      (∀ b ∈ o, b < 128) → (∀ b ∈ e, b < 128) → 13 ∉ o → 13 ∉ e →
      (run_bytes (.completes o e c)).result
        = run_sync_bytes (.completes o e c)) := by
  refine ⟨rfl, fun _ => rfl, ?_, ?_⟩
  · intro o e c
    refine ⟨rfl, ?_⟩
    show (⟨⟨decodeAscii o⟩, ⟨decodeAscii e⟩, pyOrZero c⟩ : RemoteCommandResult) = _
    rw [pyOrZero_eq]
  · intro o e c ho he h13o h13e
    show (⟨⟨decodeAscii o⟩, ⟨decodeAscii e⟩, pyOrZero c⟩ : RemoteCommandResult)
      = ⟨⟨univNewlines (decodeAscii o)⟩, ⟨univNewlines (decodeAscii e)⟩, c⟩
    rw [pyOrZero_eq,
      univNewlines_eq_self (decodeAscii o) (decodeAscii_no_cr ho h13o),
      univNewlines_eq_self (decodeAscii e) (decodeAscii_no_cr he h13e)]

/-- C4 witness: the agreement clause applied to a concrete ASCII
carriage-return-free output. -/
theorem c4_run_variants_amended_witness :
    (run_bytes (.completes [104, 105, 10] [] 0)).result
      = run_sync_bytes (.completes [104, 105, 10] [] 0) :=
  c4_run_variants_amended.2.2.2 [104, 105, 10] [] 0
    (by decide) (by decide) (by decide) (by decide)

/-- C5 counterexample: a listing with one well-formed line and one
truncated line of four fields yields two records, not one — a
four-to-seven-field line becomes a partial record rather than being
dropped. -/
theorem c5_truncated_line_kept :
    (conv_fetch_jobs
      "1|a|RUNNING|node1|5:00|10:00|5:00|None\n2|b|RUNNING|node2" 0).length
      = 2 := by decide

/-- C5 (amended): a listing line splits into fields after stripping; a
line with fewer than four fields is dropped, a line with at least four
fields yields a record, and a listing of one well-formed (eight-field)
line and one sub-four-field truncated line yields exactly one record;
parsing is total, so no input fails the batch. -/
theorem c5_short_lines_dropped_amended :
    (∀ parts : List (List Char), parts.length < 4 →
      squeueArms parts = none) ∧
    (∀ parts : List (List Char), 4 ≤ parts.length →
      (squeueArms parts).isSome = true) ∧
    (∀ good bad : List Char,
      8 ≤ (pySplitBar (pyStrip good)).length →
      (pySplitBar (pyStrip bad)).length < 4 →
      (parseSqueueLines [good, bad]).length = 1) := by
  refine ⟨squeueArms_none_of_short, squeueArms_isSome_of_long, ?_⟩
  intro good bad hgood hbad
  have hg : (parseSqueueLine good).isSome = true :=
    squeueArms_isSome_of_long _ (by omega)
  have hb : parseSqueueLine bad = none :=
    squeueArms_none_of_short _ hbad
  obtain ⟨j, hj⟩ := Option.isSome_iff_exists.mp hg
  simp [parseSqueueLines, List.filterMap_cons, hj, hb]

/-- C5 witness: the amended statement applied at a concrete
well-formed line and a concrete two-field truncated line. -/
theorem c5_short_lines_dropped_witness :
    (parseSqueueLines
      ["1|a|RUNNING|node1|5:00|10:00|5:00|None".data, "2|b".data]).length
      = 1 :=
  c5_short_lines_dropped_amended.2.2
    "1|a|RUNNING|node1|5:00|10:00|5:00|None".data "2|b".data
    (by decide) (by decide)

/-- C6: block-structured parsing yields exactly one record per header
line carrying a numeric job id (an input with no header yields the
empty list); a headerless prefix is ignored, and a header's record is
folded only from the lines before the next header, the tail being
parsed separately. -/
theorem c6_oarstat_block_structure :
    (∀ text : String, (parse_oarstat_full text).length
      = (pySplitlines text.data).countP fun l => (headerId l).isSome) ∧
    (∀ text : String,
      ((pySplitlines text.data).countP fun l => (headerId l).isSome) = 0 →
      parse_oarstat_full text = []) ∧
    (∀ pre ls : List (List Char), (∀ l ∈ pre, headerId l = none) →
      parseOarAux none (pre ++ ls) = parseOarAux none ls) ∧
    (∀ (line ds : List Char) (ls : List (List Char)),
      headerId line = some ds →
      parseOarAux none (line :: ls)
        = (ls.takeWhile fun l => (headerId l).isNone).foldl oarUpdate
            (newOARJob ds)
          :: parseOarAux none (ls.dropWhile fun l => (headerId l).isNone)) := by
  refine ⟨fun text => parseOarAux_none_length _, ?_, ?_, ?_⟩
  · intro text h
    have := parseOarAux_none_length (pySplitlines text.data)
    rw [h] at this
    exact List.length_eq_zero.mp this
  · intro pre ls hpre
    induction pre with
    | nil => rfl
    | cons l pre ih =>
      rw [List.cons_append,
        parseOarAux_none_cons_skip _ (hpre l (by simp)),
        ih fun x hx => hpre x (by simp [hx])]
  · intro line ds ls h
    rw [parseOarAux_none_cons_header ls h,
      parseOarAux_some ls (newOARJob ds)
        (newOARJob_id_ne (headerId_some_ne_nil h))]

/-- C6 witness: the block characterisation applied to a concrete
two-record dump. -/
theorem c6_oarstat_block_witness :
    parse_oarstat_full "noise\nJob_Id : 12\n   name = a\nJob_Id : 34\n   state = W"
      = [{ job_id := "12", name := "a" }, { job_id := "34", state := "W" }] ∧
    parseOarAux none ("noise".data :: ["Job_Id : 12".data])
      = parseOarAux none ["Job_Id : 12".data] ∧
    (parse_oarstat_full "no header lines\nat all").length = 0 :=
  ⟨by decide,
    c6_oarstat_block_structure.2.2.1 ["noise".data] ["Job_Id : 12".data]
      (by intro l hl; simp at hl; subst hl; decide),
    c6_oarstat_block_structure.1 "no header lines\nat all"⟩

/-- C7 counterexample: the error returned on failure is the stripped
stderr, not the captured stderr itself, and the default message also
appears when stderr is whitespace-only rather than empty. -/
theorem c7_stderr_not_verbatim :
    hpc_submit_jupyter_job "oops" " boom " = ("", "boom") ∧
    (" boom " : String) ≠ "boom" ∧
    conv_submit_jupyter_job "nope" " \n " = ("", "Failed to submit job") ∧
    (" \n " : String) ≠ "" :=
  ⟨by decide, by decide, by decide, by decide⟩

/-- C7 (amended): all four submit operations share one outcome
function; it reports failure exactly when the stripped stdout is not a
non-empty digit string, in which case the error is the stripped stderr
— or the default message when stderr strips to empty — and on success
the numeric id is returned with an empty error, always as data. -/
theorem c7_submit_outcome_amended :
    (∀ o e : String,
      hpc_submit_jupyter_job o e = submitOutcome o e ∧
      hpc_submit_custom_job o e = submitOutcome o e ∧
      conv_submit_jupyter_job o e = submitOutcome o e ∧
      conv_submit_custom_job o e = submitOutcome o e) ∧
    (∀ o e : String,
      ((submitOutcome o e).1 = "" ↔
        ¬(pyStrip o.data ≠ [] ∧ (pyStrip o.data).all isDigitCh = true)) ∧
      (¬(pyStrip o.data ≠ [] ∧ (pyStrip o.data).all isDigitCh = true) →
        submitOutcome o e
          = ("", if pyStrip e.data = [] then "Failed to submit job"
              else ⟨pyStrip e.data⟩)) ∧
      ((pyStrip o.data ≠ [] ∧ (pyStrip o.data).all isDigitCh = true) →
        submitOutcome o e = (⟨pyStrip o.data⟩, ""))) := by
  constructor
  · exact fun o e => ⟨rfl, rfl, rfl, rfl⟩
  · intro o e
    by_cases hfail : pyStrip o.data = [] ∨ ¬(pyStrip o.data).all isDigitCh = true
    · have hno : ¬(pyStrip o.data ≠ [] ∧ (pyStrip o.data).all isDigitCh = true) := by
        rcases hfail with h | h
        · exact fun hc => hc.1 h
        · exact fun hc => h hc.2
      have hres : submitOutcome o e
          = ("", if pyStrip e.data = [] then "Failed to submit job"
              else ⟨pyStrip e.data⟩) := by
        simp only [submitOutcome, if_pos hfail]
      refine ⟨?_, fun _ => hres, fun hc => absurd hc hno⟩
      rw [hres]
      exact ⟨fun _ => hno, fun _ => rfl⟩
    · push_neg at hfail
      have hyes : pyStrip o.data ≠ [] ∧ (pyStrip o.data).all isDigitCh = true :=
        ⟨hfail.1, by simpa using hfail.2⟩
      have hcond : ¬(pyStrip o.data = [] ∨ ¬(pyStrip o.data).all isDigitCh = true) := by
        push_neg
        exact ⟨hyes.1, by simp [hyes.2]⟩
      have hres : submitOutcome o e = (⟨pyStrip o.data⟩, "") := by
        simp only [submitOutcome, if_neg hcond]
      refine ⟨?_, fun hno => absurd hyes hno, fun _ => hres⟩
      rw [hres]
      constructor
      · intro he
        exact absurd (by simpa [String.ext_iff] using he) hyes.1
      · intro hno
        exact absurd hyes hno

/-- C7 witness: the amended outcome characterisation applied at
concrete submission results. -/
theorem c7_submit_outcome_witness :
    submitOutcome "4321\n" "ignored" = ("4321", "") ∧
    submitOutcome "err: no" "denied" = ("", "denied") :=
  ⟨by
    have h := (c7_submit_outcome_amended.2 "4321\n" "ignored").2.2 (by decide)
    exact h.trans (by decide),
  by
    have h := (c7_submit_outcome_amended.2 "err: no" "denied").2.1 (by decide)
    exact h.trans (by decide)⟩

/-- C8: endpoint resolution queries the node first, calls the url
query at most 30 times, never cancels the remote job, and when every
attempt returns no url the trace is exactly 30 attempts separated by
fixed 2-second sleeps followed by the distinct service-did-not-start
notification. -/
theorem c8_endpoint_resolution_bounded :
    (∀ (job node : String) (get : Nat → String),
      (connect_to job node get).countP isQueryUrlEv ≤ 30) ∧
    (∀ (job node : String) (get : Nat → String),
      ConnEvent.cancelJob ∉ connect_to job node get) ∧
    (∀ (job node : String) (get : Nat → String),
      (connect_to job node get).head? = some .queryNode) ∧
    (∀ (job node : String) (get : Nat → String),
      ¬(node = "" ∨ is_name node = false) → (∀ i, i < 30 → get i = "") →
      connect_to job node get
        = .queryNode
          :: (((List.range 30).map
                fun k => [ConnEvent.queryUrl k, ConnEvent.sleepSecs 2]).flatten
            ++ [.notifyErr serviceErrMsg])) := by
  refine ⟨?_, ?_, ?_, ?_⟩
  · intro job node get
    unfold connect_to
    rw [List.countP_cons]
    split
    · simp [isQueryUrlEv]
    · rw [List.countP_append]
      have h1 := resolveLoop_count 30 0 get
      split <;> simp [isQueryUrlEv] <;> omega
  · intro job node get
    unfold connect_to
    simp only [List.mem_cons]
    rintro (h | h)
    · exact absurd h (by simp)
    · revert h
      split
      · simp
      · rw [List.mem_append]
        rintro (h | h)
        · exact resolveLoop_no_cancel 30 0 get h
        · revert h
          split <;> simp
  · intro job node get
    rfl
  · intro job node get hnode hget
    unfold connect_to
    rw [if_neg hnode]
    have he := resolveLoop_all_empty 30 0 get (fun k hk => by simpa using hget k hk)
    rw [he]
    have hzero : ∀ k : Nat, (0 : Nat) + k = k := fun k => by omega
    simp [hzero]

/-- C8 witness: the exhausted-attempts trace at a concrete node and an
oracle that never produces a url. -/
theorem c8_endpoint_resolution_witness :
    connect_to "7" "big12" (fun _ => "")
      = .queryNode
        :: (((List.range 30).map
              fun k => [ConnEvent.queryUrl k, ConnEvent.sleepSecs 2]).flatten
          ++ [.notifyErr serviceErrMsg]) :=
  c8_endpoint_resolution_bounded.2.2.2 "7" "big12" (fun _ => "")
    (by decide) (fun i _ => rfl)

/-- C9 counterexample: two closes while the forwarding process is
still alive signal it twice, so "signalled at most once across all
closes" fails. -/
theorem c9_double_signal :
    cleanup (some .running) + cleanup (some .running) = 2 := by decide

/-- C9 (amended): a close never errors and sends at most one signal;
a close of an absent or already-dead process sends none, so two closes
signal at most once provided the process has exited by the second
close — but a second close while the process is still alive signals it
again. -/
theorem c9_close_idempotent_amended :
    (∀ t : Option ProcState, cleanup t ≤ 1) ∧
    cleanup none = 0 ∧
    (∀ c : Int, cleanup (some (.exited c)) = 0) ∧
    (∀ (t : Option ProcState) (c : Int),
      cleanup t + cleanup (some (.exited c)) ≤ 1) := by
  refine ⟨?_, rfl, fun c => rfl, ?_⟩
  · intro t
    rcases t with _ | p
    · exact Nat.zero_le _
    · rcases p with _ | c <;> simp [cleanup, poll]
  · intro t c
    rcases t with _ | p
    · simp [cleanup, poll]
    · rcases p with _ | c' <;> simp [cleanup, poll]

/-- C10: whenever the normalised input misses the `H:M:S` form but the
token scan finds at least one `<int>(d|h|m)` token, `parse_to_minutes`
returns the weighted sum of exactly the matched tokens, ignoring all
surrounding unmatched text. -/
theorem c10_lenient_token_sum :
    ∀ s : String,
      hmsMatch (pyLower (pyStrip s.data)) = none →
      findTokens (pyLower (pyStrip s.data)) ≠ [] →
      parse_to_minutes s
        = some (tokensTotal (findTokens (pyLower (pyStrip s.data)))) := by
  intro s h1 h2
  unfold parse_to_minutes parseStripped
  have hne : pyLower (pyStrip s.data) ≠ [] := by
    intro h
    rw [h] at h2
    exact h2 rfl
  rw [if_neg hne, h1, if_pos h2]

/-- C10 witness: the token-sum rule applied to an input whose
surrounding text matches nothing. -/
theorem c10_lenient_token_sum_witness :
    parse_to_minutes "abc 5h xyz" = some 300 :=
  (c10_lenient_token_sum "abc 5h xyz" (by decide) (by decide)).trans (by decide)

end Lip6
